import Mathlib

/-!
Verification development for the pollution-data cleaning and reshaping
pipeline (`pollution_data_cleaner_gui.py` and `format_by_location.py`).

Tables are embedded shallowly: a `Table` is a list of column names plus a
list of rows, each row a list of cells aligned positionally with the
columns.  A cell is a string, an exact rational number (standing for the
idealized decimal value of a numeric pandas cell), or the missing marker
`na` (pandas `NaN`).  Machine floats are modelled by exact rationals; the
rounding function is round-half-to-even to 3 fractional digits, matching
`round(x, 3)` / `Series.round(3)` on decimal values.

Pandas semantics embedded here, used by the pivot and partition models:
  - `pivot_table(index=…, columns=…, values=…, aggfunc="mean")` groups by
    the index columns plus the pivot column, silently dropping every row
    that has a missing value in any grouping column (pandas `groupby`
    excludes missing keys); the aggregate is the mean of the non-missing
    values of the group; with the default `dropna=True` the aggregated
    frame is purged of all-missing rows before unstacking and of
    all-missing columns after, so a grouping key survives iff some
    pollutant mean for it is non-missing, and a pollutant column survives
    iff some key gives it a non-missing mean.
  - `groupby(cols)` (the per-location partitioner) likewise drops rows
    with a missing value in any grouping column.
Row and column enumeration order (pandas sorts group keys) is immaterial
to every property proved below; keys are enumerated by first occurrence,
pollutant columns in sorted order.
-/

unseal Rat.mul Rat.inv Rat.add Rat.sub

/-- A single table cell: a string, an (idealized decimal) number, or the
missing marker (pandas `NaN`). -/
inductive Cell where
  | str : String → Cell
  | num : ℚ → Cell
  | na  : Cell
deriving DecidableEq

/-- A data frame: column names plus rows of cells, positionally aligned. -/
structure Table where
  cols : List String
  rows : List (List Cell)
deriving DecidableEq

/-- All rows have exactly one cell per column. -/
def Table.aligned (t : Table) : Prop :=
  ∀ r ∈ t.rows, r.length = t.cols.length

instance (t : Table) : Decidable t.aligned := by
  unfold Table.aligned; infer_instance

/-- Value of column `c` in a row (first occurrence), `na` if the column is
absent.  Models `row[c]` for the column sets exercised here. -/
def lookupCell (cols : List String) (row : List Cell) (c : String) : Cell :=
  ((cols.zip row).lookup c).getD Cell.na

/-- Optional cell access by row index and column name. -/
def getCell (t : Table) (i : ℕ) (c : String) : Option Cell :=
  t.rows[i]?.bind fun r => (t.cols.zip r).lookup c

/-- Whether a cell is non-missing. -/
def cellPresent : Cell → Bool
  | Cell.na => false
  | _ => true

/-- Numeric view of a cell, `none` for strings and missing values
(`pd.to_numeric(…, errors="coerce")` on a non-numeric entry). -/
def valOf : Cell → Option ℚ
  | Cell.num q => some q
  | _ => none

/-- Back from an optional number to a cell (`NaN` for `none`). -/
def optCell : Option ℚ → Cell
  | none => Cell.na
  | some q => Cell.num q

/-- Floor of a rational, written with `Int.fdiv` so that it evaluates by
kernel reduction (rationals are kept normalized with positive
denominator, so this is the true floor). -/
def ratFloor (x : ℚ) : ℤ :=
  x.num.fdiv x.den

/-- Round a rational to the nearest integer, ties to the even integer
(IEEE/numpy tie rule, the one `round` and `Series.round` use). -/
def roundHalfEven (x : ℚ) : ℤ :=
  let f := ratFloor x
  let r := x - f
  if r < 1/2 then f
  else if 1/2 < r then f + 1
  else if f % 2 = 0 then f else f + 1

/-- Round to 3 fractional digits (`round(x, 3)` / `.round(3)` on the
idealized decimal value). -/
def round3 (x : ℚ) : ℚ :=
  (roundHalfEven (x * 1000) : ℚ) / 1000

/-- One cell of a numeric-metric column after
`pd.to_numeric(col, errors="coerce").round(3)`: numbers are rounded,
everything else is coerced to missing. -/
def roundCell : Cell → Cell
  | Cell.num q => Cell.num (round3 q)
  | _ => Cell.na

/-! Python string primitives, embedded over character lists so that every
theorem below evaluates by kernel reduction on concrete inputs. -/

/-- Python `str.lower()` (ASCII range, the only one exercised here). -/
def pyLower (s : String) : String :=
  String.mk (s.toList.map Char.toLower)

/-- Python `str.strip()`: drop leading and trailing whitespace. -/
def pyStrip (s : String) : String :=
  String.mk (((s.toList.dropWhile Char.isWhitespace).reverse.dropWhile
    Char.isWhitespace).reverse)

/-- Split a character list at every occurrence of `sep` (Python
`str.split(sep)` for a one-character separator). -/
def splitChar (sep : Char) : List Char → List (List Char)
  | [] => [[]]
  | c :: rest =>
    if c = sep then [] :: splitChar sep rest
    else
      match splitChar sep rest with
      | [] => [[c]]
      | h :: t => (c :: h) :: t

/-- Python `str.split(sep)` for a one-character separator. -/
def pySplit (sep : Char) (s : String) : List String :=
  (splitChar sep s.toList).map String.mk

/-- Code-point comparison of strings: Python `<=` on `str`, the order
`sorted` uses. -/
def charListLe : List Char → List Char → Bool
  | [], _ => true
  | _ :: _, [] => false
  | a :: as, b :: bs => if a = b then charListLe as bs else decide (a.toNat < b.toNat)

/-- Python string `<=` lifted to Lean strings. -/
def strLe (a b : String) : Bool :=
  charListLe a.toList b.toList

/-- The order relation `sorted` uses, as a `Prop` for the sort interface. -/
def StrLeProp (a b : String) : Prop :=
  strLe a b = true

instance : DecidableRel StrLeProp := by
  unfold StrLeProp; infer_instance

/-- Python `sorted` on a list of strings. -/
def pySorted (l : List String) : List String :=
  l.insertionSort StrLeProp

/-! Cleaner (`pollution_data_cleaner_gui.py`), `clean_and_label_dataframe`. -/

/-- The fixed deny-list `DROP_COLS` of the cleaner. -/
def DROP_COLS : List String :=
  ["Pollutant Standard", "Date Last Change", "Event Type", "AQI", "CBSA", "Datum"]

/-- The numeric-metric columns rounded by the cleaner. -/
def ROUND_COLS : List String :=
  ["Arithmetic Mean", "1st Max Value", "1st Max Daily Value"]

/-- `POLLUTANT_PREFIX.get(pollutant, "UNKNOWN")`: the sample-ID
prefix table with its `"UNKNOWN"` default. -/
def pollutantPrefixOf (pollutant : String) : String :=
  if pollutant = "PM2.5" then "PM25"
  else if pollutant = "PM10" then "PM10"
  else if pollutant = "NO2" then "NO2"
  else "UNKNOWN"

/-- Python `f"{i:04d}"`: decimal digits left-padded with zeros to width 4. -/
def format04 (i : ℕ) : String :=
  let s := toString i
  if s.length < 4 then String.mk (List.replicate (4 - s.length) '0') ++ s else s

/-- The sample identifier `f"{prefix}-{i:04d}"`. -/
def sampleId (pollutant : String) (i : ℕ) : String :=
  pollutantPrefixOf pollutant ++ "-" ++ format04 i

/-- `df.drop(columns=[c for c in DROP_COLS if c in df.columns])`. -/
def dropDenied (t : Table) : Table :=
  { cols := t.cols.filter fun c => !(DROP_COLS.contains c),
    rows := t.rows.map fun r =>
      (((t.cols.zip r).filter fun p => !(DROP_COLS.contains p.1)).map Prod.snd) }

/-- The two `df.insert` calls: `Sample ID` at position 0 (value
`f"{prefix}-{i:04d}"`, `i` the 1-based row position) then
`Pollutant Name` at position 1 (constant). -/
def insertIds (t : Table) (pollutant : String) : Table :=
  { cols := "Sample ID" :: "Pollutant Name" :: t.cols,
    rows := t.rows.enum.map fun p =>
      Cell.str (sampleId pollutant (p.1 + 1)) :: Cell.str pollutant :: p.2 }

/-- `if col in df.columns: df[col] = pd.to_numeric(df[col], errors="coerce").round(3)`. -/
def roundNamed (t : Table) (target : String) : Table :=
  if target ∈ t.cols then
    { cols := t.cols,
      rows := t.rows.map fun r =>
        (t.cols.zip r).map fun p => if p.1 = target then roundCell p.2 else p.2 }
  else t

/-- The rounding loop over `ROUND_COLS`. -/
def roundAll (t : Table) : Table :=
  ROUND_COLS.foldl roundNamed t

/-- `df[names]`: select columns by name, in the given order. -/
def selectCols (t : Table) (names : List String) : Table :=
  { cols := names,
    rows := t.rows.map fun r => names.map (lookupCell t.cols r) }

/-- `clean_and_label_dataframe(df, pollutant)`. -/
def clean_and_label_dataframe (t : Table) (pollutant : String) : Table :=
  let t1 := dropDenied t
  let t2 := insertIds t1 pollutant
  let t3 := roundAll t2
  selectCols t3
    (["Sample ID", "Pollutant Name"] ++
      t3.cols.filter fun c => c ≠ "Sample ID" ∧ c ≠ "Pollutant Name")

/-! Filter (`pollution_data_cleaner_gui.py`, `filter_data`). -/

/-- Value of a nonempty all-digit character list, `none` otherwise. -/
def digitsVal (ds : List Char) : Option ℕ :=
  if ds.isEmpty then none
  else if ds.all Char.isDigit then
    some (ds.foldl (fun n c => 10 * n + (c.toNat - 48)) 0)
  else none

/-- Python `float(s)` restricted to plain decimal literals (optional sign,
digits, optional fractional part) — the only shapes these theorems
exercise; exponents and the named specials are outside the model. -/
def parseDecimal (s : String) : Option ℚ :=
  let cs := (pyStrip s).toList
  let sgn : ℚ := match cs with
    | '-' :: _ => -1
    | _ => 1
  let body : List Char := match cs with
    | '-' :: rest => rest
    | '+' :: rest => rest
    | _ => cs
  match splitChar '.' body with
  | [w] => (digitsVal w).map fun n => sgn * n
  | [w, f] =>
    if w.isEmpty && f.isEmpty then none
    else
      match (if w.isEmpty then some 0 else digitsVal w),
            (if f.isEmpty then some 0 else digitsVal f) with
      | some a, some b => some (sgn * ((a : ℚ) + (b : ℚ) / (10 : ℚ) ^ f.length))
      | _, _ => none
  | _ => none

/-- `lat_str, lon_str = [x.strip() for x in keyword.split(",")]` followed by
`float(lat_str), float(lon_str)`: `none` when the destructuring or either
conversion raises. -/
def parseCoords (kw : String) : Option (ℚ × ℚ) :=
  match (pySplit ',' kw).map pyStrip with
  | [a, b] =>
    match parseDecimal a, parseDecimal b with
    | some la, some lo => some (la, lo)
    | _, _ => none
  | _ => none

/-- `Series.astype(str)` on one cell (`NaN` stringifies to `"nan"`). -/
def cellToStr : Cell → String
  | Cell.str s => s
  | Cell.num q => toString q
  | Cell.na => "nan"

/-- `str.contains(keyword, case=False)`: case-insensitive substring test. -/
def containsCI (s kw : String) : Bool :=
  decide ((pyLower kw).toList <:+: (pyLower s).toList)

/-- The string-valued part of `FILTER_MAP` (the `coordinates` entry is
handled by the dedicated branch of `filter_data`, as in the source). -/
def FILTER_MAP (kt : String) : Option String :=
  if kt = "state" then some "State Name"
  else if kt = "city" then some "City Name"
  else if kt = "county" then some "County Name"
  else if kt = "site" then some "Site Num"
  else none

/-- The coordinate row predicate
`(df["Latitude"].round(3) == round(lat,3)) & (df["Longitude"].round(3) == round(lon,3))`;
missing coordinates compare unequal (`NaN == x` is false). -/
def latLonMatch (cols : List String) (row : List Cell) (la lo : ℚ) : Bool :=
  (match valOf (lookupCell cols row "Latitude") with
   | some x => decide (round3 x = round3 la)
   | none => false) &&
  (match valOf (lookupCell cols row "Longitude") with
   | some y => decide (round3 y = round3 lo)
   | none => false)

/-- `filter_data(df, keyword_type, keyword)`.  The boolean records whether
the `except` branch ran (an error dialog was shown); the table is what the
function returns to its caller.  A missing `Latitude`/`Longitude` column
raises `KeyError` inside the `try`, landing in the same `except` branch as
a malformed keyword. -/
def filter_data (t : Table) (keywordType keyword : String) : Bool × Table :=
  let kt := pyLower (pyStrip keywordType)
  if kt = "coordinates" then
    match parseCoords keyword with
    | none => (true, t)
    | some (la, lo) =>
      if "Latitude" ∈ t.cols ∧ "Longitude" ∈ t.cols then
        (false, { cols := t.cols, rows := t.rows.filter fun r => latLonMatch t.cols r la lo })
      else (true, t)
  else
    match FILTER_MAP kt with
    | some col =>
      if col ∈ t.cols then
        (false, { cols := t.cols,
                  rows := t.rows.filter fun r =>
                    containsCI (cellToStr (lookupCell t.cols r col)) keyword })
      else (false, t)
    | none => (false, t)

/-! Labeler (`format_by_location.py`, `make_pollutant_labels`). -/

/-- The fixed letter alphabet `abc` of the labeler. -/
def labelAlphabet : List String :=
  ["A", "B", "C", "D", "E", "F", "G", "H"]

/-- One loop iteration: the label for pollutant `p` at sorted position `i`;
`none` models the `IndexError` raised by `abc[i]` when `i` is past the
alphabet (the spec's `TooManyPollutantsError`). -/
def labelOf (use_abc : Bool) (i : ℕ) (p : String) : Option (String × String) :=
  if use_abc then
    (labelAlphabet[i]?).map fun L => (p, "Pollutant " ++ L ++ " (" ++ p ++ ")")
  else some (p, p)

/-- The labeling loop over the enumerated sorted pollutant list. -/
def labelList (use_abc : Bool) : List (ℕ × String) → Option (List (String × String))
  | [] => some []
  | pr :: rest =>
    match labelOf use_abc pr.1 pr.2, labelList use_abc rest with
    | some x, some xs => some (x :: xs)
    | _, _ => none

/-- `make_pollutant_labels(unique_pollutants, use_abc)`: sort the names
(Python `sorted`, lexicographic), enumerate, and label each; `none` when
the `Sequential` alphabet runs out. -/
def make_pollutant_labels (unique_pollutants : List String) (use_abc : Bool) :
    Option (List (String × String)) :=
  labelList use_abc ((pySorted unique_pollutants).enum)

/-! Pivot engine (`format_by_location.py`, the `pivot_table` call). -/

/-- The grouping-key tuple of a row: the cells of the index columns. -/
def keyTuple (cols iCols : List String) (row : List Cell) : List Cell :=
  iCols.map (lookupCell cols row)

/-- The pivot-key (pollutant) of a row, `none` unless it is a present
string (the `Pollutant Name` column produced by the cleaner is a string
column; a missing key is dropped by pandas grouping). -/
def pollOf (cols : List String) (pCol : String) (row : List Cell) : Option String :=
  match lookupCell cols row pCol with
  | Cell.str s => some s
  | _ => none

/-- A row participates in the pivot grouping iff its whole grouping key and
its pivot key are present (pandas `groupby` drops missing keys). -/
def validPivotRow (cols iCols : List String) (pCol : String) (row : List Cell) : Bool :=
  (keyTuple cols iCols row).all cellPresent && (pollOf cols pCol row).isSome

/-- The non-missing values contributing to the `(key, pollutant)` cell. -/
def groupVals (t : Table) (iCols : List String) (pCol vCol : String)
    (k : List Cell) (p : String) : List ℚ :=
  (t.rows.filter fun r =>
      validPivotRow t.cols iCols pCol r
        && decide (keyTuple t.cols iCols r = k)
        && decide (pollOf t.cols pCol r = some p)).filterMap
    fun r => valOf (lookupCell t.cols r vCol)

/-- The aggregated cell: `aggfunc="mean"` over the group, skipping missing
values; missing when nothing non-missing contributes. -/
def cellMean (t : Table) (iCols : List String) (pCol vCol : String)
    (k : List Cell) (p : String) : Option ℚ :=
  let vs := groupVals t iCols pCol vCol k p
  if vs.isEmpty then none else some (vs.sum / (vs.length : ℚ))

/-- Every grouping key formed by the pivot grouping (before the
`dropna=True` purge of all-missing aggregate rows). -/
def pivotKeysAll (t : Table) (iCols : List String) (pCol : String) : List (List Cell) :=
  (((t.rows.filter (validPivotRow t.cols iCols pCol)).map (keyTuple t.cols iCols)).dedup)

/-- Every pollutant that participates in the pivot grouping, in sorted
order (pandas sorts the unstacked column labels). -/
def pivotPollsAll (t : Table) (iCols : List String) (pCol : String) : List String :=
  pySorted (((t.rows.filter (validPivotRow t.cols iCols pCol)).filterMap
    (pollOf t.cols pCol)).dedup)

/-- Grouping keys surviving `dropna=True`: those with at least one
non-missing aggregated cell. -/
def pivotKeysKept (t : Table) (iCols : List String) (pCol vCol : String) : List (List Cell) :=
  (pivotKeysAll t iCols pCol).filter fun k =>
    (pivotPollsAll t iCols pCol).any fun p => (cellMean t iCols pCol vCol k p).isSome

/-- Pollutant columns surviving `dropna=True`: those with at least one
non-missing aggregated cell. -/
def pivotPollsKept (t : Table) (iCols : List String) (pCol vCol : String) : List String :=
  (pivotPollsAll t iCols pCol).filter fun p =>
    (pivotKeysAll t iCols pCol).any fun k => (cellMean t iCols pCol vCol k p).isSome

/-- `df.pivot_table(index=iCols, columns=pCol, values=vCol, aggfunc="mean").reset_index()`. -/
def pivot_table (t : Table) (iCols : List String) (pCol vCol : String) : Table :=
  { cols := iCols ++ pivotPollsKept t iCols pCol vCol,
    rows := (pivotKeysKept t iCols pCol vCol).map fun k =>
      k ++ (pivotPollsKept t iCols pCol vCol).map fun p =>
        optCell (cellMean t iCols pCol vCol k p) }

/-- The duplicate-aggregation scenario input: two rows with identical
location, date and pollutant and values 10.0 and 12.0. -/
def dupTable : Table :=
  ⟨["State Name", "Date", "Pollutant Name", "Arithmetic Mean"],
    [[Cell.str "Maryland", Cell.str "2025-01-10", Cell.str "PM2.5", Cell.num 10],
     [Cell.str "Maryland", Cell.str "2025-01-10", Cell.str "PM2.5", Cell.num 12]]⟩

/-! Partitioner (`format_by_location.py`, the per-location `groupby`). -/

/-- The partition key of a wide row: the cells of the location columns. -/
def partitionKey (t : Table) (gcols : List String) (r : List Cell) : List Cell :=
  gcols.map (lookupCell t.cols r)

/-- `wide.groupby(group_cols)` as used for one-sheet-per-location export:
one `(key, rows)` pair per distinct fully-present key (pandas `groupby`
drops rows with a missing key component); with no location columns at all,
a single partition holding the whole table (the `"All"` sheet). -/
def partitionRows (t : Table) (gcols : List String) : List (List Cell × List (List Cell)) :=
  if gcols.isEmpty then [([], t.rows)]
  else
    ((((t.rows.map (partitionKey t gcols)).filter fun k => k.all cellPresent).dedup).map
      fun k => (k, t.rows.filter fun r => decide (partitionKey t gcols r = k)))

/-! Facts about the code-point string order used by `pySorted`. -/

theorem char_eq_of_toNat_eq {a b : Char} (h : a.toNat = b.toNat) : a = b :=
  Char.ext (UInt32.toNat.inj h)

theorem charListLe_total : ∀ as bs : List Char,
    charListLe as bs = true ∨ charListLe bs as = true
  | [], _ => Or.inl rfl
  | _ :: _, [] => Or.inr rfl
  | a :: as, b :: bs => by
    by_cases hab : a = b
    · subst hab
      simpa [charListLe] using charListLe_total as bs
    · have hba : ¬b = a := fun e => hab e.symm
      have hne : a.toNat ≠ b.toNat := fun h => hab (char_eq_of_toNat_eq h)
      rcases Nat.lt_or_ge a.toNat b.toNat with h | h
      · left; simp [charListLe, hab, h]
      · have hlt : b.toNat < a.toNat := lt_of_le_of_ne h fun e => hne e.symm
        right; simp [charListLe, hba, hlt]

theorem charListLe_trans : ∀ as bs cs : List Char,
    charListLe as bs = true → charListLe bs cs = true → charListLe as cs = true
  | [], _, _, _, _ => rfl
  | _ :: _, [], _, h1, _ => by simp [charListLe] at h1
  | _ :: _, _ :: _, [], _, h2 => by simp [charListLe] at h2
  | a :: as, b :: bs, c :: cs, h1, h2 => by
    simp only [charListLe] at h1 h2 ⊢
    by_cases hab : a = b
    · subst hab
      by_cases hac : a = c
      · subst hac
        rw [if_pos rfl] at h1 h2 ⊢
        exact charListLe_trans as bs cs h1 h2
      · rw [if_pos rfl] at h1
        rw [if_neg hac] at h2 ⊢
        exact h2
    · by_cases hbc : b = c
      · subst hbc
        rw [if_neg hab] at h1 ⊢
        exact h1
      · rw [if_neg hab] at h1
        rw [if_neg hbc] at h2
        have h1' : a.toNat < b.toNat := of_decide_eq_true h1
        have h2' : b.toNat < c.toNat := of_decide_eq_true h2
        have hac : ¬a = c := fun e => by
          subst e; exact Nat.lt_irrefl _ (Nat.lt_trans h1' h2')
        rw [if_neg hac]
        exact decide_eq_true (Nat.lt_trans h1' h2')

theorem charListLe_antisymm : ∀ as bs : List Char,
    charListLe as bs = true → charListLe bs as = true → as = bs
  | [], [], _, _ => rfl
  | [], _ :: _, _, h2 => by simp [charListLe] at h2
  | _ :: _, [], h1, _ => by simp [charListLe] at h1
  | a :: as, b :: bs, h1, h2 => by
    simp only [charListLe] at h1 h2
    by_cases hab : a = b
    · subst hab
      rw [if_pos rfl] at h1 h2
      rw [charListLe_antisymm as bs h1 h2]
    · have hba : ¬b = a := fun e => hab e.symm
      rw [if_neg hab] at h1
      rw [if_neg hba] at h2
      exact absurd (of_decide_eq_true h2) (Nat.lt_asymm (of_decide_eq_true h1))

theorem str_eq_of_toList_eq : ∀ {a b : String}, a.toList = b.toList → a = b
  | ⟨_⟩, ⟨_⟩, h => congrArg String.mk h

/-- C9: rounding to 3 decimal places is idempotent; the floor of an
integer cast is itself. -/
theorem ratFloor_intCast (n : ℤ) : ratFloor (n : ℚ) = n := by
  unfold ratFloor
  rw [Rat.num_intCast, Rat.den_intCast]
  simp [Int.fdiv_one]

theorem roundHalfEven_intCast (n : ℤ) : roundHalfEven (n : ℚ) = n := by
  unfold roundHalfEven
  rw [ratFloor_intCast]
  norm_num

/-- C9: rounding to 3 decimal places is idempotent — re-rounding an
already-rounded value yields the same value, for every rational. -/
theorem round3_idempotent (x : ℚ) : round3 (round3 x) = round3 x := by
  unfold round3
  rw [div_mul_cancel₀ _ (by norm_num : (1000 : ℚ) ≠ 0), roundHalfEven_intCast]

/-- C1 (amended): on a malformed coordinate keyword the filter shows the
error dialog, but then returns the input table unchanged to its caller. -/
theorem filter_coords_malformed_returns_input (t : Table) (kw : String)
    (h : parseCoords kw = none) :
    filter_data t "coordinates" kw = (true, t) := by
  have hkt : pyLower (pyStrip "coordinates") = "coordinates" := by decide
  simp only [filter_data, hkt, if_pos, h]

theorem filter_coords_malformed_returns_input_witness :
    parseCoords "not-a-coordinate" = none ∧
      filter_data ⟨["State Name"], [[Cell.str "Maryland"]]⟩ "coordinates" "not-a-coordinate"
        = (true, ⟨["State Name"], [[Cell.str "Maryland"]]⟩) :=
  ⟨by decide, filter_coords_malformed_returns_input _ _ (by decide)⟩

/-- C1 (counterexample to the claim as stated): a malformed coordinate
keyword makes `filter_data` return its input table unchanged — the input
is passed through, contrary to the claim. -/
theorem filter_coords_malformed_passthrough_counterexample :
    filter_data ⟨["City Name"], [[Cell.str "Baltimore"]]⟩ "coordinates" "garbage"
      = (true, ⟨["City Name"], [[Cell.str "Baltimore"]]⟩) := by
  decide

/-- C10: with a well-formed coordinate keyword but no `Latitude` or
`Longitude` column, the `KeyError` lands in the same catch-all branch:
the dialog is shown and the input table is returned unchanged — no rows
are excluded. -/
theorem filter_coords_missing_column_noop (t : Table) (kw : String) (la lo : ℚ)
    (hp : parseCoords kw = some (la, lo))
    (hc : "Latitude" ∉ t.cols ∨ "Longitude" ∉ t.cols) :
    filter_data t "coordinates" kw = (true, t) := by
  have hkt : pyLower (pyStrip "coordinates") = "coordinates" := by decide
  have hcc : ¬("Latitude" ∈ t.cols ∧ "Longitude" ∈ t.cols) := fun hand =>
    hc.elim (fun h1 => h1 hand.1) fun h2 => h2 hand.2
  simp only [filter_data, hkt, if_pos, hp, hcc, if_neg, if_false]

theorem filter_coords_missing_column_noop_witness :
    parseCoords "39.290, -76.610" = some (3929/100, -7661/100) ∧
      ("Latitude" ∉ (⟨["Sample ID", "State Name"],
          [[Cell.str "PM25-0001", Cell.str "Maryland"]]⟩ : Table).cols ∨
        "Longitude" ∉ (⟨["Sample ID", "State Name"],
          [[Cell.str "PM25-0001", Cell.str "Maryland"]]⟩ : Table).cols) ∧
      filter_data ⟨["Sample ID", "State Name"],
          [[Cell.str "PM25-0001", Cell.str "Maryland"]]⟩ "coordinates" "39.290, -76.610"
        = (true, ⟨["Sample ID", "State Name"],
            [[Cell.str "PM25-0001", Cell.str "Maryland"]]⟩) :=
  ⟨by decide, by decide,
    filter_coords_missing_column_noop _ "39.290, -76.610" (3929/100) (-7661/100)
      (by decide) (by decide)⟩

/-! Labeler lemmas. -/

theorem pySorted_perm_eq {l₁ l₂ : List String} (h : List.Perm l₁ l₂) :
    pySorted l₁ = pySorted l₂ := by
  haveI : IsTotal String StrLeProp :=
    ⟨fun a b => charListLe_total a.toList b.toList⟩
  haveI : IsTrans String StrLeProp :=
    ⟨fun a b c h1 h2 => charListLe_trans a.toList b.toList c.toList h1 h2⟩
  haveI : IsAntisymm String StrLeProp :=
    ⟨fun a b h1 h2 => str_eq_of_toList_eq (charListLe_antisymm a.toList b.toList h1 h2)⟩
  exact List.eq_of_perm_of_sorted
    (((List.perm_insertionSort _ l₁).trans h).trans (List.perm_insertionSort _ l₂).symm)
    (List.sorted_insertionSort _ l₁) (List.sorted_insertionSort _ l₂)

theorem labelOf_fst {use_abc : Bool} {i : ℕ} {p : String} {pr : String × String}
    (h : labelOf use_abc i p = some pr) : pr.1 = p := by
  unfold labelOf at h
  cases use_abc with
  | false =>
    rw [if_neg (by decide)] at h
    cases h
    rfl
  | true =>
    rw [if_pos rfl] at h
    rcases Option.map_eq_some'.mp h with ⟨L, _, hL⟩
    cases hL
    rfl

theorem labelList_fst (use_abc : Bool) : ∀ (es : List (ℕ × String)) (m : List (String × String)),
    labelList use_abc es = some m → m.map Prod.fst = es.map Prod.snd
  | [], m, h => by cases h; rfl
  | pr :: rest, m, h => by
    unfold labelList at h
    cases h1 : labelOf use_abc pr.1 pr.2 with
    | none => rw [h1] at h; cases h
    | some x =>
      cases h2 : labelList use_abc rest with
      | none => rw [h1, h2] at h; cases h
      | some xs =>
        rw [h1, h2] at h
        cases h
        simp only [List.map_cons, labelOf_fst h1, labelList_fst use_abc rest xs h2]

/-- C5: the Sequential labeler is order-insensitive — it sorts the names
(code-point ascending, Python `sorted`) and labels them in that order, so
any two enumerations of the same name set get identical mappings; with
names NO2 and PM2.5 the labels are Pollutant A (NO2) and
Pollutant B (PM2.5). -/
theorem sequential_labels_deterministic :
    (∀ l₁ l₂ : List String, List.Perm l₁ l₂ →
        make_pollutant_labels l₁ true = make_pollutant_labels l₂ true) ∧
    (∀ (l : List String) (m : List (String × String)),
        make_pollutant_labels l true = some m → m.map Prod.fst = pySorted l) ∧
    make_pollutant_labels ["NO2", "PM2.5"] true
      = some [("NO2", "Pollutant A (NO2)"), ("PM2.5", "Pollutant B (PM2.5)")] := by
  refine ⟨fun l₁ l₂ h => ?_, fun l m h => ?_, by decide⟩
  · unfold make_pollutant_labels
    rw [pySorted_perm_eq h]
  · rw [labelList_fst true _ m h, List.enum_map_snd]

theorem sequential_labels_deterministic_witness :
    List.Perm ["PM2.5", "NO2"] ["NO2", "PM2.5"] ∧
      make_pollutant_labels ["PM2.5", "NO2"] true
        = make_pollutant_labels ["NO2", "PM2.5"] true :=
  ⟨List.Perm.swap "NO2" "PM2.5" [],
    sequential_labels_deterministic.1 _ _ (List.Perm.swap "NO2" "PM2.5" [])⟩

/-! C6 lemmas: the Sequential alphabet is exhausted past 8 names; the
Direct scheme never fails. -/

theorem labelList_none_of_big : ∀ (es : List (ℕ × String)) (pr : ℕ × String),
    pr ∈ es → 8 ≤ pr.1 → labelList true es = none
  | [], pr, hpr, _ => absurd hpr (List.not_mem_nil pr)
  | e :: rest, pr, hpr, h8 => by
    unfold labelList
    rcases List.mem_cons.mp hpr with he | he
    · subst he
      have hnone : labelAlphabet[pr.1]? = none :=
        List.getElem?_eq_none (by simpa [labelAlphabet] using h8)
      simp [labelOf, hnone]
    · rw [labelList_none_of_big rest pr he h8]
      cases labelOf true e.1 e.2 <;> rfl

theorem labelList_direct : ∀ es : List (ℕ × String),
    labelList false es = some (es.map fun pr => (pr.2, pr.2))
  | [] => rfl
  | _ :: rest => by
    unfold labelList
    rw [labelList_direct rest]
    rfl

/-- C6: with more than 8 distinct names the Sequential labeler fails (the
`abc[i]` lookup raises past letter H); the Direct scheme succeeds on any
list, labeling every pollutant with its own name. -/
theorem labeler_alphabet_limit :
    (∀ l : List String, l.Nodup → 8 < l.length → make_pollutant_labels l true = none) ∧
    (∀ l : List String, ∃ m, make_pollutant_labels l false = some m ∧
        m.map Prod.fst = pySorted l ∧ ∀ pr ∈ m, pr.2 = pr.1) := by
  constructor
  · intro l _ hlen
    have hslen : 8 < (pySorted l).length := by
      unfold pySorted
      rw [List.Perm.length_eq (List.perm_insertionSort StrLeProp l)]
      exact hlen
    obtain ⟨x, hx⟩ : ∃ x, (pySorted l)[8]? = some x := by
      rw [List.getElem?_eq_getElem hslen]
      exact ⟨_, rfl⟩
    have hmem : ((8 : ℕ), x) ∈ (pySorted l).enum := by
      apply List.getElem?_mem (n := 8)
      rw [List.getElem?_enum, hx]
      rfl
    exact labelList_none_of_big _ _ hmem (le_refl 8)
  · intro l
    refine ⟨(pySorted l).enum.map fun pr => (pr.2, pr.2), ?_, ?_, ?_⟩
    · unfold make_pollutant_labels
      exact labelList_direct _
    · rw [List.map_map]
      exact List.enum_map_snd (pySorted l)
    · intro pr hpr
      rcases List.mem_map.mp hpr with ⟨e, _, he⟩
      rw [← he]

theorem labeler_alphabet_limit_witness :
    (["P1", "P2", "P3", "P4", "P5", "P6", "P7", "P8", "P9"] : List String).Nodup ∧
      8 < (["P1", "P2", "P3", "P4", "P5", "P6", "P7", "P8", "P9"] : List String).length ∧
      make_pollutant_labels ["P1", "P2", "P3", "P4", "P5", "P6", "P7", "P8", "P9"] true
        = none :=
  ⟨by decide, by decide,
    labeler_alphabet_limit.1 _ (by decide) (by decide)⟩

/-! Assoc-list lookup lemmas used to trace cells through the cleaner. -/

theorem lookup_filter_keys (q : String → Bool) :
    ∀ (l : List (String × Cell)) (c : String),
      (l.filter fun p => q p.1).lookup c = if q c then l.lookup c else none
  | [], c => by cases hq : q c <;> simp
  | (k, v) :: ps, c => by
    rw [List.filter_cons]
    cases hk : q k with
    | true =>
      rw [if_pos rfl, List.lookup_cons, List.lookup_cons]
      cases hck : c == k with
      | true =>
        have : c = k := beq_iff_eq.mp hck
        subst this
        rw [if_pos hk]
      | false => exact lookup_filter_keys q ps c
    | false =>
      rw [if_neg (by decide), lookup_filter_keys q ps c, List.lookup_cons]
      cases hck : c == k with
      | true =>
        have : c = k := beq_iff_eq.mp hck
        subst this
        rw [hk]
        simp
      | false => rfl

theorem lookup_map_keyed (g : String → Cell → Cell) :
    ∀ (l : List (String × Cell)) (c : String),
      (l.map fun p => (p.1, g p.1 p.2)).lookup c = (l.lookup c).map (g c)
  | [], _ => rfl
  | (k, v) :: ps, c => by
    rw [List.map_cons, List.lookup_cons, List.lookup_cons]
    cases hck : c == k with
    | true =>
      have : c = k := beq_iff_eq.mp hck
      subst this
      rfl
    | false => exact lookup_map_keyed g ps c

theorem lookup_map_self (g : String → Cell) :
    ∀ (names : List String) (c : String),
      ((names.map fun n => (n, g n)).lookup c) = if c ∈ names then some (g c) else none
  | [], c => by simp
  | n :: ns, c => by
    rw [List.map_cons, List.lookup_cons]
    cases hcn : c == n with
    | true =>
      have : c = n := beq_iff_eq.mp hcn
      subst this
      simp
    | false =>
      have hne : ¬c = n := fun e => by simp [e] at hcn
      rw [lookup_map_self g ns c]
      simp [hne]

theorem lookup_zip_isSome_of_mem :
    ∀ (cols : List String) (r : List Cell) (c : String), c ∈ cols →
      cols.length = r.length → ((cols.zip r).lookup c).isSome = true
  | [], _, c, hc, _ => absurd hc (List.not_mem_nil c)
  | k :: cols, r, c, hc, hlen => by
    cases r with
    | nil => simp at hlen
    | cons v r =>
      rw [List.zip_cons_cons, List.lookup_cons]
      cases hck : c == k with
      | true => rfl
      | false =>
        have hne : ¬c = k := fun e => by simp [e] at hck
        exact lookup_zip_isSome_of_mem cols r c
          ((List.mem_cons.mp hc).resolve_left hne) (Nat.succ_injective hlen)

theorem lookup_zip_mem :
    ∀ (cols : List String) (r : List Cell) (c : String) (v : Cell),
      (cols.zip r).lookup c = some v → v ∈ r
  | [], _, _, _, h => by cases h
  | _ :: _, [], _, _, h => by cases h
  | k :: cols, w :: r, c, v, h => by
    rw [List.zip_cons_cons, List.lookup_cons] at h
    cases hck : c == k with
    | true =>
      rw [hck] at h
      cases h
      exact List.mem_cons_self w r
    | false =>
      rw [hck] at h
      exact List.mem_cons_of_mem w (lookup_zip_mem cols r c v h)

theorem lookup_zip_not_mem :
    ∀ (cols : List String) (r : List Cell) (c : String), c ∉ cols →
      (cols.zip r).lookup c = none
  | [], _, _, _ => rfl
  | _ :: _, [], _, _ => rfl
  | k :: cols, v :: r, c, hc => by
    rw [List.zip_cons_cons, List.lookup_cons]
    cases hck : c == k with
    | true =>
      exact absurd (beq_iff_eq.mp hck ▸ List.mem_cons_self k cols) hc
    | false =>
      exact lookup_zip_not_mem cols r c fun h => hc (List.mem_cons_of_mem k h)

theorem lookup_append_some (A B : List (String × Cell)) (c : String) (v : Cell)
    (h : A.lookup c = some v) : (A ++ B).lookup c = some v := by
  induction A with
  | nil => cases h
  | cons p ps ih =>
    obtain ⟨k, w⟩ := p
    rw [List.cons_append, List.lookup_cons]
    rw [List.lookup_cons] at h
    cases hck : c == k with
    | true => rw [hck] at h; exact h
    | false => rw [hck] at h; exact ih h

theorem lookup_append_none (A B : List (String × Cell)) (c : String)
    (h : A.lookup c = none) : (A ++ B).lookup c = B.lookup c := by
  induction A with
  | nil => rfl
  | cons p ps ih =>
    obtain ⟨k, w⟩ := p
    rw [List.cons_append, List.lookup_cons]
    rw [List.lookup_cons] at h
    cases hck : c == k with
    | true => rw [hck] at h; cases h
    | false => rw [hck] at h; exact ih h

theorem zip_names_map (g : String → Cell) :
    ∀ names : List String, names.zip (names.map g) = names.map fun n => (n, g n)
  | [] => rfl
  | n :: ns => by
    rw [List.map_cons, List.zip_cons_cons, zip_names_map g ns, List.map_cons]

/-! Stage lemmas for the cleaner pipeline. -/

theorem zip_filter_rebuild (q : String → Bool) :
    ∀ (cols : List String) (r : List Cell), cols.length = r.length →
      (cols.filter q).zip (((cols.zip r).filter fun p => q p.1).map Prod.snd)
        = (cols.zip r).filter fun p => q p.1
  | [], _, _ => rfl
  | c :: cols, r, h => by
    cases r with
    | nil => simp at h
    | cons v r =>
      have ih := zip_filter_rebuild q cols r (Nat.succ_injective h)
      cases hq : q c <;>
        simp [List.zip_cons_cons, List.filter_cons, hq, ih]

theorem filter_zip_map_fst (q : String → Bool) :
    ∀ (cols : List String) (r : List Cell), cols.length = r.length →
      ((cols.zip r).filter fun p => q p.1).map Prod.fst = cols.filter q
  | [], _, _ => rfl
  | c :: cols, r, h => by
    cases r with
    | nil => simp at h
    | cons v r =>
      have ih := filter_zip_map_fst q cols r (Nat.succ_injective h)
      cases hq : q c <;>
        simp [List.zip_cons_cons, List.filter_cons, hq, ih]

theorem dropDenied_aligned (t : Table) (h : t.aligned) : (dropDenied t).aligned := by
  intro r1 hr1
  obtain ⟨r, hr, rfl⟩ := List.mem_map.mp hr1
  have hlen := h r hr
  show (((t.cols.zip r).filter _).map Prod.snd).length = (t.cols.filter _).length
  rw [List.length_map,
    ← filter_zip_map_fst (fun s => !(DROP_COLS.contains s)) t.cols r hlen.symm,
    List.length_map]

theorem mem_enum_snd {l : List (List Cell)} {pr : ℕ × List Cell}
    (h : pr ∈ l.enum) : pr.2 ∈ l := by
  obtain ⟨i, hi⟩ := List.getElem?_of_mem h
  rw [List.getElem?_enum] at hi
  rcases Option.map_eq_some'.mp hi with ⟨a, ha, hpr⟩
  rw [← hpr]
  exact List.getElem?_mem ha

theorem insertIds_aligned (t : Table) (p : String) (h : t.aligned) :
    (insertIds t p).aligned := by
  intro r2 hr2
  obtain ⟨pr, hpr, rfl⟩ := List.mem_map.mp hr2
  have := h pr.2 (mem_enum_snd hpr)
  simp [insertIds, this]

theorem roundNamed_cols (t : Table) (tgt : String) : (roundNamed t tgt).cols = t.cols := by
  unfold roundNamed
  split <;> rfl

theorem roundNamed_aligned (t : Table) (tgt : String) (h : t.aligned) :
    (roundNamed t tgt).aligned := by
  unfold roundNamed
  split
  · intro r' hr'
    obtain ⟨r, hr, rfl⟩ := List.mem_map.mp hr'
    simp [List.length_zip, h r hr]
  · exact h

theorem roundAll_eq (t : Table) :
    roundAll t = roundNamed (roundNamed (roundNamed t "Arithmetic Mean")
      "1st Max Value") "1st Max Daily Value" := rfl

theorem roundAll_cols (t : Table) : (roundAll t).cols = t.cols := by
  rw [roundAll_eq, roundNamed_cols, roundNamed_cols, roundNamed_cols]

theorem roundAll_aligned (t : Table) (h : t.aligned) : (roundAll t).aligned := by
  rw [roundAll_eq]
  exact roundNamed_aligned _ _ (roundNamed_aligned _ _ (roundNamed_aligned _ _ h))

theorem getCell_dropDenied (t : Table) (hal : t.aligned) (i : ℕ) (c : String) :
    getCell (dropDenied t) i c
      = if DROP_COLS.contains c then none else getCell t i c := by
  unfold getCell dropDenied
  simp only [List.getElem?_map]
  cases ht : t.rows[i]? with
  | none => cases hd : DROP_COLS.contains c <;> simp
  | some r =>
    have hlen := hal r (List.getElem?_mem ht)
    simp only [Option.map_some', Option.some_bind]
    rw [zip_filter_rebuild (fun s => !(DROP_COLS.contains s)) t.cols r hlen.symm,
      lookup_filter_keys (fun s => !(DROP_COLS.contains s))]
    cases hd : DROP_COLS.contains c <;> simp

theorem getCell_insertIds_sid (t : Table) (p : String) (i : ℕ) :
    getCell (insertIds t p) i "Sample ID"
      = t.rows[i]?.map fun _ => Cell.str (sampleId p (i + 1)) := by
  unfold getCell insertIds
  simp only [List.getElem?_map, List.getElem?_enum]
  cases ht : t.rows[i]? <;> simp [List.zip_cons_cons, List.lookup_cons]

theorem getCell_insertIds_pn (t : Table) (p : String) (i : ℕ) :
    getCell (insertIds t p) i "Pollutant Name"
      = t.rows[i]?.map fun _ => Cell.str p := by
  unfold getCell insertIds
  simp only [List.getElem?_map, List.getElem?_enum]
  cases ht : t.rows[i]? <;> simp [List.zip_cons_cons, List.lookup_cons]

theorem getCell_insertIds_other (t : Table) (p : String) (i : ℕ) (c : String)
    (h1 : c ≠ "Sample ID") (h2 : c ≠ "Pollutant Name") :
    getCell (insertIds t p) i c = getCell t i c := by
  unfold getCell insertIds
  simp only [List.getElem?_map, List.getElem?_enum]
  have hb1 : (c == "Sample ID") = false := by simp [h1]
  have hb2 : (c == "Pollutant Name") = false := by simp [h2]
  cases ht : t.rows[i]? <;>
    simp [List.zip_cons_cons, List.lookup_cons, hb1, hb2]

theorem zip_self_map (g : String × Cell → Cell) :
    ∀ (cols : List String) (r : List Cell), cols.length = r.length →
      cols.zip ((cols.zip r).map g) = (cols.zip r).map fun p => (p.1, g p)
  | [], _, _ => rfl
  | _ :: _, [], h => by simp at h
  | c :: cols, v :: r, h => by
    rw [List.zip_cons_cons, List.map_cons, List.zip_cons_cons, List.map_cons,
      zip_self_map g cols r (Nat.succ_injective h)]

theorem getCell_roundNamed (t : Table) (tgt : String) (hal : t.aligned) (i : ℕ) (c : String) :
    getCell (roundNamed t tgt) i c
      = if c = tgt then (getCell t i c).map roundCell else getCell t i c := by
  unfold roundNamed
  by_cases htgt : tgt ∈ t.cols
  · rw [if_pos htgt]
    unfold getCell
    simp only [List.getElem?_map]
    cases ht : t.rows[i]? with
    | none => cases hc : decide (c = tgt) <;> simp
    | some r =>
      have hlen := hal r (List.getElem?_mem ht)
      simp only [Option.map_some', Option.some_bind]
      rw [zip_self_map (fun p => if p.1 = tgt then roundCell p.2 else p.2)
        t.cols r hlen.symm,
        lookup_map_keyed (fun s v => if s = tgt then roundCell v else v)]
      by_cases hc : c = tgt
      · subst hc
        simp
      · simp only [if_neg hc]
        cases (t.cols.zip r).lookup c <;> rfl
  · rw [if_neg htgt]
    by_cases hc : c = tgt
    · subst hc
      have hnone : getCell t i c = none := by
        unfold getCell
        cases ht : t.rows[i]? <;> simp [lookup_zip_not_mem _ _ _ htgt]
      rw [if_pos rfl, hnone]
      rfl
    · rw [if_neg hc]

theorem getCell_selectCols (t : Table) (names : List String) (i : ℕ) (c : String) :
    getCell (selectCols t names) i c
      = t.rows[i]?.bind fun r =>
          if c ∈ names then some (lookupCell t.cols r c) else none := by
  unfold getCell selectCols
  simp only [List.getElem?_map]
  cases ht : t.rows[i]? with
  | none => rfl
  | some r =>
    simp only [Option.map_some', Option.some_bind]
    rw [zip_names_map (lookupCell t.cols r) names, lookup_map_self]

theorem roundNamed_rows_length (t : Table) (tgt : String) :
    (roundNamed t tgt).rows.length = t.rows.length := by
  unfold roundNamed
  split <;> simp

theorem stage3_rows_length (t : Table) (p : String) :
    (roundAll (insertIds (dropDenied t) p)).rows.length = t.rows.length := by
  rw [roundAll_eq, roundNamed_rows_length, roundNamed_rows_length, roundNamed_rows_length]
  show ((dropDenied t).rows.enum.map _).length = _
  rw [List.length_map, List.enum_length]
  show (t.rows.map _).length = _
  rw [List.length_map]

theorem stage3_rows_none (t : Table) (p : String) (i : ℕ) (h : t.rows[i]? = none) :
    (roundAll (insertIds (dropDenied t) p)).rows[i]? = none := by
  rw [List.getElem?_eq_none_iff] at h ⊢
  rw [stage3_rows_length]
  exact h

theorem clean_rows_length (t : Table) (p : String) :
    (clean_and_label_dataframe t p).rows.length = t.rows.length := by
  show ((roundAll (insertIds (dropDenied t) p)).rows.map _).length = _
  rw [List.length_map, stage3_rows_length]

theorem getCell_roundAll_round (t : Table) (hal : t.aligned) (i : ℕ) (c : String)
    (hc : c ∈ ROUND_COLS) :
    getCell (roundAll t) i c = (getCell t i c).map roundCell := by
  have hal1 := roundNamed_aligned t "Arithmetic Mean" hal
  have hal2 := roundNamed_aligned _ "1st Max Value" hal1
  rw [roundAll_eq, getCell_roundNamed _ _ hal2, getCell_roundNamed _ _ hal1,
    getCell_roundNamed _ _ hal]
  rcases (show c = "Arithmetic Mean" ∨ c = "1st Max Value" ∨ c = "1st Max Daily Value" by
    simpa [ROUND_COLS] using hc) with rfl | rfl | rfl <;> simp

theorem getCell_roundAll_other (t : Table) (hal : t.aligned) (i : ℕ) (c : String)
    (hc : c ∉ ROUND_COLS) :
    getCell (roundAll t) i c = getCell t i c := by
  have h3 : ¬(c = "Arithmetic Mean" ∨ c = "1st Max Value" ∨ c = "1st Max Daily Value") := by
    simpa [ROUND_COLS] using hc
  push_neg at h3
  have hal1 := roundNamed_aligned t "Arithmetic Mean" hal
  have hal2 := roundNamed_aligned _ "1st Max Value" hal1
  rw [roundAll_eq, getCell_roundNamed _ _ hal2, getCell_roundNamed _ _ hal1,
    getCell_roundNamed _ _ hal, if_neg h3.2.2, if_neg h3.2.1, if_neg h3.1]

theorem clean_cols (t : Table) (p : String)
    (h1 : "Sample ID" ∉ t.cols) (h2 : "Pollutant Name" ∉ t.cols) :
    (clean_and_label_dataframe t p).cols
      = "Sample ID" :: "Pollutant Name" ::
          (t.cols.filter fun c => !(DROP_COLS.contains c)) := by
  have hself : ((t.cols.filter fun c => !(DROP_COLS.contains c)).filter
      fun c => decide (c ≠ "Sample ID" ∧ c ≠ "Pollutant Name"))
      = t.cols.filter fun c => !(DROP_COLS.contains c) := by
    apply List.filter_eq_self.mpr
    intro a ha
    have hat := List.mem_of_mem_filter ha
    exact decide_eq_true ⟨fun e => h1 (e ▸ hat), fun e => h2 (e ▸ hat)⟩
  show (["Sample ID", "Pollutant Name"] ++
      ((roundAll (insertIds (dropDenied t) p)).cols.filter fun c =>
        decide (c ≠ "Sample ID" ∧ c ≠ "Pollutant Name"))) = _
  rw [roundAll_cols]
  show (["Sample ID", "Pollutant Name"] ++
      (("Sample ID" :: "Pollutant Name" ::
          (t.cols.filter fun c => !(DROP_COLS.contains c))).filter fun c =>
        decide (c ≠ "Sample ID" ∧ c ≠ "Pollutant Name"))) = _
  rw [List.filter_cons_of_neg (by decide), List.filter_cons_of_neg (by decide), hself]
  rfl

/-- C4: the cleaner puts `Sample ID` first (value from the prefix table
plus a 1-based zero-padded counter), `Pollutant Name` second (constant),
rounds `Arithmetic Mean` / `1st Max Value` / `1st Max Daily Value` to 3
decimals coercing non-numeric entries to missing, and keeps the remaining
original columns in their original relative order; a 2-row batch tagged
PM2.5 with Arithmetic Mean 9.8067 yields IDs PM25-0001/PM25-0002 and
mean 9.807. -/
theorem clean_and_label_spec :
    (∀ (t : Table) (pollutant : String),
      t.aligned → "Sample ID" ∉ t.cols → "Pollutant Name" ∉ t.cols →
      ((clean_and_label_dataframe t pollutant).cols
          = "Sample ID" :: "Pollutant Name" ::
              (t.cols.filter fun c => !(DROP_COLS.contains c))) ∧
      (clean_and_label_dataframe t pollutant).rows.length = t.rows.length ∧
      (∀ i : ℕ, getCell (clean_and_label_dataframe t pollutant) i "Sample ID"
          = t.rows[i]?.map fun _ =>
              Cell.str (pollutantPrefixOf pollutant ++ "-" ++ format04 (i + 1))) ∧
      (∀ i : ℕ, getCell (clean_and_label_dataframe t pollutant) i "Pollutant Name"
          = t.rows[i]?.map fun _ => Cell.str pollutant) ∧
      (∀ c ∈ ROUND_COLS, ∀ i : ℕ,
          getCell (clean_and_label_dataframe t pollutant) i c
            = (getCell t i c).map roundCell)) ∧
    clean_and_label_dataframe
        ⟨["Arithmetic Mean", "AQI", "Latitude"],
          [[Cell.num (98067/10000), Cell.num 42, Cell.num (3929/100)],
           [Cell.num 8, Cell.num 41, Cell.num (3929/100)]]⟩ "PM2.5"
      = ⟨["Sample ID", "Pollutant Name", "Arithmetic Mean", "Latitude"],
         [[Cell.str "PM25-0001", Cell.str "PM2.5", Cell.num (9807/1000),
             Cell.num (3929/100)],
          [Cell.str "PM25-0002", Cell.str "PM2.5", Cell.num 8,
             Cell.num (3929/100)]]⟩ := by
  constructor
  · intro t pollutant hal h1 h2
    have hal1 : (dropDenied t).aligned := dropDenied_aligned t hal
    have hal2 : (insertIds (dropDenied t) pollutant).aligned :=
      insertIds_aligned _ _ hal1
    refine ⟨clean_cols t pollutant h1 h2, clean_rows_length t pollutant, ?_, ?_, ?_⟩
    · intro i
      show getCell (selectCols (roundAll (insertIds (dropDenied t) pollutant))
          (["Sample ID", "Pollutant Name"] ++
            ((roundAll (insertIds (dropDenied t) pollutant)).cols.filter fun c =>
              decide (c ≠ "Sample ID" ∧ c ≠ "Pollutant Name")))) i "Sample ID" = _
      rw [getCell_selectCols]
      have hc3 : getCell (roundAll (insertIds (dropDenied t) pollutant)) i "Sample ID"
          = (dropDenied t).rows[i]?.map fun _ =>
              Cell.str (sampleId pollutant (i + 1)) := by
        rw [getCell_roundAll_other _ hal2 i _ (by decide), getCell_insertIds_sid]
      cases ht : t.rows[i]? with
      | none =>
        rw [stage3_rows_none t pollutant i ht]
        rfl
      | some r =>
        have hd : (dropDenied t).rows[i]?
            = some (((t.cols.zip r).filter fun p => !(DROP_COLS.contains p.1)).map
                Prod.snd) := by
          show (t.rows.map _)[i]? = _
          rw [List.getElem?_map, ht]
          rfl
        rw [hd] at hc3
        rcases Option.bind_eq_some.mp hc3 with ⟨r3, hr3, hlook⟩
        rw [hr3, Option.some_bind]
        show (if "Sample ID" ∈ _ then
            some (lookupCell (roundAll (insertIds (dropDenied t) pollutant)).cols r3
              "Sample ID") else none) = _
        rw [if_pos (List.mem_append_left _ (by decide))]
        unfold lookupCell
        rw [hlook]
        rfl
    · intro i
      show getCell (selectCols (roundAll (insertIds (dropDenied t) pollutant))
          (["Sample ID", "Pollutant Name"] ++
            ((roundAll (insertIds (dropDenied t) pollutant)).cols.filter fun c =>
              decide (c ≠ "Sample ID" ∧ c ≠ "Pollutant Name")))) i "Pollutant Name" = _
      rw [getCell_selectCols]
      have hc3 : getCell (roundAll (insertIds (dropDenied t) pollutant)) i "Pollutant Name"
          = (dropDenied t).rows[i]?.map fun _ => Cell.str pollutant := by
        rw [getCell_roundAll_other _ hal2 i _ (by decide), getCell_insertIds_pn]
      cases ht : t.rows[i]? with
      | none =>
        rw [stage3_rows_none t pollutant i ht]
        rfl
      | some r =>
        have hd : (dropDenied t).rows[i]?
            = some (((t.cols.zip r).filter fun p => !(DROP_COLS.contains p.1)).map
                Prod.snd) := by
          show (t.rows.map _)[i]? = _
          rw [List.getElem?_map, ht]
          rfl
        rw [hd] at hc3
        rcases Option.bind_eq_some.mp hc3 with ⟨r3, hr3, hlook⟩
        rw [hr3, Option.some_bind]
        show (if "Pollutant Name" ∈ _ then
            some (lookupCell (roundAll (insertIds (dropDenied t) pollutant)).cols r3
              "Pollutant Name") else none) = _
        rw [if_pos (List.mem_append_left _ (by decide))]
        unfold lookupCell
        rw [hlook]
        rfl
    · intro c hc i
      have hnotin : c ≠ "Sample ID" ∧ c ≠ "Pollutant Name" :=
        (show ∀ x ∈ ROUND_COLS, x ≠ "Sample ID" ∧ x ≠ "Pollutant Name" by decide) c hc
      have hnd : DROP_COLS.contains c = false :=
        (show ∀ x ∈ ROUND_COLS, DROP_COLS.contains x = false by decide) c hc
      have hchain : getCell (roundAll (insertIds (dropDenied t) pollutant)) i c
          = (getCell t i c).map roundCell := by
        rw [getCell_roundAll_round _ hal2 i c hc,
          getCell_insertIds_other _ _ _ _ hnotin.1 hnotin.2,
          getCell_dropDenied t hal i c, hnd]
        rfl
      show getCell (selectCols (roundAll (insertIds (dropDenied t) pollutant))
          (["Sample ID", "Pollutant Name"] ++
            ((roundAll (insertIds (dropDenied t) pollutant)).cols.filter fun c =>
              decide (c ≠ "Sample ID" ∧ c ≠ "Pollutant Name")))) i c = _
      rw [getCell_selectCols]
      by_cases hmem : c ∈ t.cols
      · have hmem1 : c ∈ (dropDenied t).cols :=
          List.mem_filter.mpr ⟨hmem, by rw [hnd]; rfl⟩
        have hnames : c ∈ ["Sample ID", "Pollutant Name"] ++
            ((roundAll (insertIds (dropDenied t) pollutant)).cols.filter fun c =>
              decide (c ≠ "Sample ID" ∧ c ≠ "Pollutant Name")) := by
          apply List.mem_append_right
          apply List.mem_filter.mpr
          refine ⟨?_, decide_eq_true hnotin⟩
          rw [roundAll_cols]
          exact List.mem_cons_of_mem _ (List.mem_cons_of_mem _ hmem1)
        cases ht : t.rows[i]? with
        | none =>
          rw [stage3_rows_none t pollutant i ht]
          have : getCell t i c = none := by
            unfold getCell
            rw [ht]
            rfl
          rw [this]
          rfl
        | some r =>
          obtain ⟨v, hv⟩ := Option.isSome_iff_exists.mp
            (lookup_zip_isSome_of_mem t.cols r c hmem (hal r (List.getElem?_mem ht)).symm)
          have hg : getCell t i c = some v := by
            unfold getCell
            rw [ht, Option.some_bind, hv]
          rw [hg] at hchain
          rcases Option.bind_eq_some.mp hchain with ⟨r3, hr3, hlook⟩
          rw [hr3, hg, Option.some_bind]
          show (if c ∈ _ then some (lookupCell _ r3 c) else none) = _
          rw [if_pos hnames]
          unfold lookupCell
          rw [hlook]
          rfl
      · have hnone : getCell t i c = none := by
          unfold getCell
          cases ht : t.rows[i]? <;> simp [lookup_zip_not_mem _ _ _ hmem]
        have hnames : c ∉ ["Sample ID", "Pollutant Name"] ++
            ((roundAll (insertIds (dropDenied t) pollutant)).cols.filter fun c =>
              decide (c ≠ "Sample ID" ∧ c ≠ "Pollutant Name")) := by
          intro hmem'
          rcases List.mem_append.mp hmem' with hm | hm
          · rcases (by simpa using hm : c = "Sample ID" ∨ c = "Pollutant Name") with
              rfl | rfl
            · exact hnotin.1 rfl
            · exact hnotin.2 rfl
          · have hcc := List.mem_of_mem_filter hm
            rw [roundAll_cols] at hcc
            rcases List.mem_cons.mp hcc with rfl | hcc
            · exact hnotin.1 rfl
            · rcases List.mem_cons.mp hcc with rfl | hcc
              · exact hnotin.2 rfl
              · exact hmem (List.mem_of_mem_filter hcc)
        rw [hnone]
        cases ht3 : (roundAll (insertIds (dropDenied t) pollutant)).rows[i]? with
        | none => rfl
        | some r3 =>
          rw [Option.some_bind]
          show (if c ∈ _ then some (lookupCell _ r3 c) else none) = _
          rw [if_neg hnames]
          rfl
  · decide

theorem clean_and_label_spec_witness :
    ((⟨["Arithmetic Mean", "AQI", "Latitude"],
        [[Cell.num (98067/10000), Cell.num 42, Cell.num (3929/100)],
         [Cell.num 8, Cell.num 41, Cell.num (3929/100)]]⟩ : Table).aligned ∧
      "Sample ID" ∉ (⟨["Arithmetic Mean", "AQI", "Latitude"],
        [[Cell.num (98067/10000), Cell.num 42, Cell.num (3929/100)],
         [Cell.num 8, Cell.num 41, Cell.num (3929/100)]]⟩ : Table).cols ∧
      "Pollutant Name" ∉ (⟨["Arithmetic Mean", "AQI", "Latitude"],
        [[Cell.num (98067/10000), Cell.num 42, Cell.num (3929/100)],
         [Cell.num 8, Cell.num 41, Cell.num (3929/100)]]⟩ : Table).cols) ∧
      (clean_and_label_dataframe
          ⟨["Arithmetic Mean", "AQI", "Latitude"],
            [[Cell.num (98067/10000), Cell.num 42, Cell.num (3929/100)],
             [Cell.num 8, Cell.num 41, Cell.num (3929/100)]]⟩ "PM2.5").cols
        = "Sample ID" :: "Pollutant Name" ::
            ((["Arithmetic Mean", "AQI", "Latitude"] : List String).filter fun c =>
              !(DROP_COLS.contains c)) :=
  ⟨⟨by decide, by decide, by decide⟩,
    (clean_and_label_spec.1 _ "PM2.5" (by decide) (by decide) (by decide)).1⟩

/-! Pivot-engine lemmas. -/

theorem keyTuple_length (cols iCols : List String) (row : List Cell) :
    (keyTuple cols iCols row).length = iCols.length :=
  List.length_map iCols _

theorem mem_pivotKeysAll {t : Table} {iCols : List String} {pCol : String}
    {row : List Cell} (hrow : row ∈ t.rows)
    (hv : validPivotRow t.cols iCols pCol row = true) :
    keyTuple t.cols iCols row ∈ pivotKeysAll t iCols pCol := by
  unfold pivotKeysAll
  rw [List.mem_dedup]
  exact List.mem_map_of_mem _ (List.mem_filter.mpr ⟨hrow, hv⟩)

theorem pivotKeysAll_elim {t : Table} {iCols : List String} {pCol : String}
    {k : List Cell} (hk : k ∈ pivotKeysAll t iCols pCol) :
    ∃ row ∈ t.rows, validPivotRow t.cols iCols pCol row = true ∧
      k = keyTuple t.cols iCols row := by
  unfold pivotKeysAll at hk
  rw [List.mem_dedup] at hk
  rcases List.mem_map.mp hk with ⟨row, hrow, hkey⟩
  rcases List.mem_filter.mp hrow with ⟨hmem, hv⟩
  exact ⟨row, hmem, hv, hkey.symm⟩

theorem validPivotRow_parts {cols iCols : List String} {pCol : String}
    {row : List Cell} (hv : validPivotRow cols iCols pCol row = true) :
    (keyTuple cols iCols row).all cellPresent = true ∧
      (pollOf cols pCol row).isSome = true := by
  unfold validPivotRow at hv
  exact (Bool.and_eq_true _ _) ▸ hv

theorem pivotKeysAll_present {t : Table} {iCols : List String} {pCol : String}
    {k : List Cell} (hk : k ∈ pivotKeysAll t iCols pCol) :
    k.all cellPresent = true := by
  rcases pivotKeysAll_elim hk with ⟨row, _, hv, rfl⟩
  exact (validPivotRow_parts hv).1

theorem pivotKeysAll_length {t : Table} {iCols : List String} {pCol : String}
    {k : List Cell} (hk : k ∈ pivotKeysAll t iCols pCol) :
    k.length = iCols.length := by
  rcases pivotKeysAll_elim hk with ⟨row, _, _, rfl⟩
  exact keyTuple_length _ _ _

theorem mem_pivotPollsAll {t : Table} {iCols : List String} {pCol : String}
    {row : List Cell} {p : String} (hrow : row ∈ t.rows)
    (hv : validPivotRow t.cols iCols pCol row = true)
    (hp : pollOf t.cols pCol row = some p) :
    p ∈ pivotPollsAll t iCols pCol := by
  unfold pivotPollsAll pySorted
  rw [(List.perm_insertionSort StrLeProp _).mem_iff, List.mem_dedup]
  exact List.mem_filterMap.mpr ⟨row, List.mem_filter.mpr ⟨hrow, hv⟩, hp⟩

theorem cellMean_isSome_of_val {t : Table} {iCols : List String} {pCol vCol : String}
    {row : List Cell} {p : String} {v : ℚ} (hrow : row ∈ t.rows)
    (hv : validPivotRow t.cols iCols pCol row = true)
    (hp : pollOf t.cols pCol row = some p)
    (hval : valOf (lookupCell t.cols row vCol) = some v) :
    (cellMean t iCols pCol vCol (keyTuple t.cols iCols row) p).isSome = true := by
  have hvmem : v ∈ groupVals t iCols pCol vCol (keyTuple t.cols iCols row) p := by
    unfold groupVals
    refine List.mem_filterMap.mpr ⟨row, List.mem_filter.mpr ⟨hrow, ?_⟩, hval⟩
    rw [hv, hp]
    simp
  unfold cellMean
  rw [if_neg (by
    intro he
    rw [List.isEmpty_iff.mp he] at hvmem
    exact List.not_mem_nil v hvmem)]
  rfl

theorem mem_pivotKeysKept {t : Table} {iCols : List String} {pCol vCol : String}
    {row : List Cell} {p : String} {v : ℚ} (hrow : row ∈ t.rows)
    (hv : validPivotRow t.cols iCols pCol row = true)
    (hp : pollOf t.cols pCol row = some p)
    (hval : valOf (lookupCell t.cols row vCol) = some v) :
    keyTuple t.cols iCols row ∈ pivotKeysKept t iCols pCol vCol := by
  unfold pivotKeysKept
  refine List.mem_filter.mpr ⟨mem_pivotKeysAll hrow hv, ?_⟩
  exact List.any_eq_true.mpr ⟨p, mem_pivotPollsAll hrow hv hp,
    cellMean_isSome_of_val hrow hv hp hval⟩

theorem pivotKeysKept_sub {t : Table} {iCols : List String} {pCol vCol : String}
    {k : List Cell} (hk : k ∈ pivotKeysKept t iCols pCol vCol) :
    k ∈ pivotKeysAll t iCols pCol :=
  List.mem_of_mem_filter hk

/-- C2 (counterexample to the claim as stated): a one-row table whose only
grouping cell is missing pivots to an empty wide table — the row forms no
output group and is silently discarded. -/
theorem pivot_missing_key_dropped_counterexample :
    pivot_table ⟨["State Name", "Pollutant Name", "Arithmetic Mean"],
        [[Cell.na, Cell.str "NO2", Cell.num 5]]⟩
      ["State Name"] "Pollutant Name" "Arithmetic Mean"
      = ⟨["State Name"], []⟩ := by
  decide

/-- C2 (amended): a long row with a fully-present grouping key, a present
pollutant and a non-missing value yields a wide row with its key, while a
row with any missing grouping-column value is dropped — no wide row
carries its key (pandas `groupby` excludes missing keys). -/
theorem pivot_grouping_key_handling (t : Table) (iCols : List String)
    (pCol vCol : String) (row : List Cell) (hrow : row ∈ t.rows) :
    ((validPivotRow t.cols iCols pCol row = true →
      ∀ v : ℚ, valOf (lookupCell t.cols row vCol) = some v →
      ∃ (i : ℕ) (r' : List Cell),
        (pivot_table t iCols pCol vCol).rows[i]? = some r' ∧
          r'.take iCols.length = keyTuple t.cols iCols row)) ∧
    ((keyTuple t.cols iCols row).all cellPresent = false →
      ∀ r' ∈ (pivot_table t iCols pCol vCol).rows,
        r'.take iCols.length ≠ keyTuple t.cols iCols row) := by
  constructor
  · intro hv v hval
    have hp : ∃ p, pollOf t.cols pCol row = some p :=
      Option.isSome_iff_exists.mp (validPivotRow_parts hv).2
    rcases hp with ⟨p, hp⟩
    have hkept := mem_pivotKeysKept hrow hv hp hval
    rcases List.getElem?_of_mem hkept with ⟨i, hi⟩
    refine ⟨i, keyTuple t.cols iCols row ++
        (pivotPollsKept t iCols pCol vCol).map fun p' =>
          optCell (cellMean t iCols pCol vCol (keyTuple t.cols iCols row) p'), ?_, ?_⟩
    · unfold pivot_table
      simp only [List.getElem?_map, hi]
      rfl
    · exact List.take_left'
        (pivotKeysAll_length (pivotKeysKept_sub hkept))
  · intro hmiss r' hr'
    unfold pivot_table at hr'
    rcases List.mem_map.mp hr' with ⟨k, hk, rfl⟩
    rw [List.take_left' (pivotKeysAll_length (pivotKeysKept_sub hk))]
    intro he
    rw [he] at hk
    rw [pivotKeysAll_present (pivotKeysKept_sub hk)] at hmiss
    cases hmiss

theorem pivot_grouping_key_handling_witness :
    ([Cell.str "Maryland", Cell.str "2025-01-10", Cell.str "PM2.5", Cell.num 10]
        ∈ (⟨["State Name", "Date", "Pollutant Name", "Arithmetic Mean"],
          [[Cell.str "Maryland", Cell.str "2025-01-10", Cell.str "PM2.5", Cell.num 10],
           [Cell.na, Cell.str "NO2", Cell.str "2025-01-10", Cell.num 7]]⟩ : Table).rows) ∧
      (validPivotRow ["State Name", "Date", "Pollutant Name", "Arithmetic Mean"]
          ["State Name", "Date"] "Pollutant Name"
          [Cell.str "Maryland", Cell.str "2025-01-10", Cell.str "PM2.5", Cell.num 10]
        = true) ∧
      ∃ (i : ℕ) (r' : List Cell),
        (pivot_table ⟨["State Name", "Date", "Pollutant Name", "Arithmetic Mean"],
          [[Cell.str "Maryland", Cell.str "2025-01-10", Cell.str "PM2.5", Cell.num 10],
           [Cell.na, Cell.str "NO2", Cell.str "2025-01-10", Cell.num 7]]⟩
          ["State Name", "Date"] "Pollutant Name" "Arithmetic Mean").rows[i]?
            = some r' ∧
          r'.take (["State Name", "Date"] : List String).length
            = keyTuple ["State Name", "Date", "Pollutant Name", "Arithmetic Mean"]
                ["State Name", "Date"]
                [Cell.str "Maryland", Cell.str "2025-01-10", Cell.str "PM2.5", Cell.num 10] :=
  ⟨by decide, by decide,
    (pivot_grouping_key_handling _ ["State Name", "Date"] "Pollutant Name"
        "Arithmetic Mean" _ (by decide)).1 (by decide) 10 (by decide)⟩

/-- C8: no two rows of the pivoted wide output share an identical
grouping-key tuple — the keys of the wide rows are pairwise distinct. -/
theorem pivot_row_key_unique (t : Table) (iCols : List String) (pCol vCol : String)
    (i j : ℕ) (ri rj : List Cell)
    (hi : (pivot_table t iCols pCol vCol).rows[i]? = some ri)
    (hj : (pivot_table t iCols pCol vCol).rows[j]? = some rj)
    (hkey : ri.take iCols.length = rj.take iCols.length) : i = j := by
  unfold pivot_table at hi hj
  simp only [List.getElem?_map] at hi hj
  rcases Option.map_eq_some'.mp hi with ⟨ki, hki, rfl⟩
  rcases Option.map_eq_some'.mp hj with ⟨kj, hkj, rfl⟩
  have hkimem : ki ∈ pivotKeysKept t iCols pCol vCol := List.getElem?_mem hki
  have hkjmem : kj ∈ pivotKeysKept t iCols pCol vCol := List.getElem?_mem hkj
  rw [List.take_left' (pivotKeysAll_length (pivotKeysKept_sub hkimem)),
    List.take_left' (pivotKeysAll_length (pivotKeysKept_sub hkjmem))] at hkey
  subst hkey
  have hnd : (pivotKeysKept t iCols pCol vCol).Nodup :=
    (List.nodup_dedup _).filter _
  have hlt : i < (pivotKeysKept t iCols pCol vCol).length := by
    rcases List.getElem?_eq_some.mp hki with ⟨h, _⟩
    exact h
  exact List.getElem?_inj hlt hnd (hki.trans hkj.symm)

theorem pivot_row_key_unique_witness :
    ((pivot_table ⟨["State Name", "Date", "Pollutant Name", "Arithmetic Mean"],
        [[Cell.str "Maryland", Cell.str "2025-01-10", Cell.str "PM2.5", Cell.num 10],
         [Cell.str "Maryland", Cell.str "2025-01-10", Cell.str "PM2.5", Cell.num 12]]⟩
        ["State Name", "Date"] "Pollutant Name" "Arithmetic Mean").rows[0]?
      = some [Cell.str "Maryland", Cell.str "2025-01-10", Cell.num 11]) ∧
      (0 : ℕ) = 0 :=
  ⟨by decide,
    pivot_row_key_unique
      ⟨["State Name", "Date", "Pollutant Name", "Arithmetic Mean"],
        [[Cell.str "Maryland", Cell.str "2025-01-10", Cell.str "PM2.5", Cell.num 10],
         [Cell.str "Maryland", Cell.str "2025-01-10", Cell.str "PM2.5", Cell.num 12]]⟩
      ["State Name", "Date"] "Pollutant Name" "Arithmetic Mean" 0 0
      [Cell.str "Maryland", Cell.str "2025-01-10", Cell.num 11]
      [Cell.str "Maryland", Cell.str "2025-01-10", Cell.num 11]
      (by decide) (by decide) rfl⟩

/-- C3: for a surviving grouping key and pollutant column, the wide cell
is the arithmetic mean of the non-missing contributing values from the
input rows of that group, and missing when no non-missing value
contributes; two duplicate rows with values 10.0 and 12.0 pivot to the
cell 11.0. -/
theorem pivot_cell_is_group_mean :
    (∀ (t : Table) (iCols : List String) (pCol vCol : String)
        (k : List Cell) (p : String),
      k ∈ pivotKeysKept t iCols pCol vCol → p ∈ pivotPollsKept t iCols pCol vCol →
      p ∉ iCols →
      ∃ (i : ℕ) (r' : List Cell),
        (pivot_table t iCols pCol vCol).rows[i]? = some r' ∧
        r'.take iCols.length = k ∧
        ((groupVals t iCols pCol vCol k p = [] →
            lookupCell (pivot_table t iCols pCol vCol).cols r' p = Cell.na) ∧
          (groupVals t iCols pCol vCol k p ≠ [] →
            lookupCell (pivot_table t iCols pCol vCol).cols r' p
              = Cell.num ((groupVals t iCols pCol vCol k p).sum
                  / ((groupVals t iCols pCol vCol k p).length : ℚ))))) ∧
    pivot_table
        ⟨["State Name", "Date", "Pollutant Name", "Arithmetic Mean"],
          [[Cell.str "Maryland", Cell.str "2025-01-10", Cell.str "PM2.5", Cell.num 10],
           [Cell.str "Maryland", Cell.str "2025-01-10", Cell.str "PM2.5", Cell.num 12]]⟩
        ["State Name", "Date"] "Pollutant Name" "Arithmetic Mean"
      = ⟨["State Name", "Date", "PM2.5"],
         [[Cell.str "Maryland", Cell.str "2025-01-10", Cell.num 11]]⟩ := by
  constructor
  · intro t iCols pCol vCol k p hk hp hpi
    rcases List.getElem?_of_mem hk with ⟨i, hi⟩
    have hklen : k.length = iCols.length := pivotKeysAll_length (pivotKeysKept_sub hk)
    refine ⟨i, k ++ (pivotPollsKept t iCols pCol vCol).map fun p' =>
        optCell (cellMean t iCols pCol vCol k p'), ?_, ?_, ?_⟩
    · unfold pivot_table
      simp only [List.getElem?_map, hi]
      rfl
    · exact List.take_left' hklen
    · have hcell : lookupCell (pivot_table t iCols pCol vCol).cols
          (k ++ (pivotPollsKept t iCols pCol vCol).map fun p' =>
            optCell (cellMean t iCols pCol vCol k p')) p
          = optCell (cellMean t iCols pCol vCol k p) := by
        show (((iCols ++ pivotPollsKept t iCols pCol vCol).zip
            (k ++ (pivotPollsKept t iCols pCol vCol).map fun p' =>
              optCell (cellMean t iCols pCol vCol k p'))).lookup p).getD Cell.na = _
        rw [List.zip_append hklen.symm,
          lookup_append_none _ _ _ (lookup_zip_not_mem iCols k p hpi),
          zip_names_map, lookup_map_self, if_pos hp]
        rfl
      constructor
      · intro hempty
        rw [hcell]
        simp [cellMean, hempty, optCell]
      · intro hne
        rw [hcell]
        simp [cellMean, List.isEmpty_iff, hne, optCell]
  · decide

theorem pivot_cell_is_group_mean_witness :
    ([Cell.str "Maryland", Cell.str "2025-01-10"]
        ∈ pivotKeysKept dupTable ["State Name", "Date"] "Pollutant Name"
            "Arithmetic Mean") ∧
      ("PM2.5" ∈ pivotPollsKept dupTable ["State Name", "Date"] "Pollutant Name"
          "Arithmetic Mean") ∧
      ("PM2.5" ∉ (["State Name", "Date"] : List String)) ∧
      ∃ (i : ℕ) (r' : List Cell),
        (pivot_table dupTable ["State Name", "Date"] "Pollutant Name"
            "Arithmetic Mean").rows[i]? = some r' ∧
        r'.take (["State Name", "Date"] : List String).length
          = [Cell.str "Maryland", Cell.str "2025-01-10"] ∧
        ((groupVals dupTable ["State Name", "Date"] "Pollutant Name" "Arithmetic Mean"
            [Cell.str "Maryland", Cell.str "2025-01-10"] "PM2.5" = [] →
          lookupCell (pivot_table dupTable ["State Name", "Date"] "Pollutant Name"
              "Arithmetic Mean").cols r' "PM2.5" = Cell.na) ∧
         (groupVals dupTable ["State Name", "Date"] "Pollutant Name" "Arithmetic Mean"
            [Cell.str "Maryland", Cell.str "2025-01-10"] "PM2.5" ≠ [] →
          lookupCell (pivot_table dupTable ["State Name", "Date"] "Pollutant Name"
              "Arithmetic Mean").cols r' "PM2.5"
            = Cell.num ((groupVals dupTable ["State Name", "Date"] "Pollutant Name"
                  "Arithmetic Mean" [Cell.str "Maryland", Cell.str "2025-01-10"]
                  "PM2.5").sum
                / ((groupVals dupTable ["State Name", "Date"] "Pollutant Name"
                  "Arithmetic Mean" [Cell.str "Maryland", Cell.str "2025-01-10"]
                  "PM2.5").length : ℚ)))) :=
  ⟨by decide, by decide, by decide,
    pivot_cell_is_group_mean.1 dupTable ["State Name", "Date"] "Pollutant Name"
      "Arithmetic Mean" [Cell.str "Maryland", Cell.str "2025-01-10"] "PM2.5"
      (by decide) (by decide) (by decide)⟩

/-! Partitioner lemmas. -/

theorem join_filter_perm {α κ : Type} [DecidableEq κ] (f : α → κ) :
    ∀ (ks : List κ) (l : List α), ks.Nodup → (∀ x ∈ l, f x ∈ ks) →
      List.Perm ((ks.map fun k => l.filter fun x => decide (f x = k)).flatten) l
  | [], l, _, hcov => by
    have hl : l = [] := List.eq_nil_iff_forall_not_mem.mpr fun x hx =>
      List.not_mem_nil _ (hcov x hx)
    subst hl
    simp
  | k :: ks, l, hnd, hcov => by
    rw [List.map_cons, List.flatten_cons]
    have hknotin : k ∉ ks := (List.nodup_cons.mp hnd).1
    have hrest : ∀ k' ∈ ks,
        (l.filter fun x => decide (f x = k'))
          = ((l.filter fun x => !decide (f x = k)).filter
              fun x => decide (f x = k')) := by
      intro k' hk'
      rw [List.filter_filter]
      apply List.filter_congr
      intro x _
      by_cases he : f x = k'
      · have hne : ¬f x = k := by
          intro e
          apply hknotin
          rw [show k = k' from e.symm.trans he]
          exact hk'
        have hkk : ¬k' = k := fun e => hknotin (e ▸ hk')
        simp [he, hne, hkk]
      · simp [he]
    rw [show (ks.map fun k' => l.filter fun x => decide (f x = k'))
        = ks.map fun k' => ((l.filter fun x => !decide (f x = k)).filter
            fun x => decide (f x = k')) from List.map_congr_left hrest]
    have ih := join_filter_perm f ks (l.filter fun x => !decide (f x = k))
      (List.nodup_cons.mp hnd).2
      (fun x hx => by
        have hxl := List.mem_of_mem_filter hx
        have hne : ¬f x = k := by simpa using List.of_mem_filter hx
        rcases List.mem_cons.mp (hcov x hxl) with he | he
        · exact absurd he hne
        · exact he)
    exact (ih.append_left _).trans (List.filter_append_perm _ l)

theorem pivot_partitionKey_present (t : Table) (iCols : List String)
    (pCol vCol : String) (gcols : List String) (hg : ∀ g ∈ gcols, g ∈ iCols)
    (r : List Cell) (hr : r ∈ (pivot_table t iCols pCol vCol).rows) :
    (partitionKey (pivot_table t iCols pCol vCol) gcols r).all cellPresent = true := by
  rcases List.mem_map.mp hr with ⟨k, hk, rfl⟩
  have hklen : k.length = iCols.length := pivotKeysAll_length (pivotKeysKept_sub hk)
  have hkpres := pivotKeysAll_present (pivotKeysKept_sub hk)
  apply List.all_eq_true.mpr
  intro cell hcell
  rcases List.mem_map.mp hcell with ⟨g, hgmem, rfl⟩
  obtain ⟨v, hv⟩ := Option.isSome_iff_exists.mp
    (lookup_zip_isSome_of_mem iCols k g (hg g hgmem) hklen.symm)
  show cellPresent (lookupCell (pivot_table t iCols pCol vCol).cols _ g) = true
  unfold lookupCell
  rw [show (pivot_table t iCols pCol vCol).cols
      = iCols ++ pivotPollsKept t iCols pCol vCol from rfl,
    List.zip_append hklen.symm, lookup_append_some _ _ _ _ hv]
  exact List.all_eq_true.mp hkpres v (lookup_zip_mem iCols k g v hv)

/-- C7: the per-location partitions of the pivoted wide table are
exhaustive — the multiset union of their rows is a permutation of the
wide rows — and every wide row lies in exactly one partition. -/
theorem partition_exhaustive (t : Table) (iCols : List String) (pCol vCol : String)
    (gcols : List String) (hg : ∀ g ∈ gcols, g ∈ iCols) :
    List.Perm
      (((partitionRows (pivot_table t iCols pCol vCol) gcols).map Prod.snd).flatten)
      (pivot_table t iCols pCol vCol).rows ∧
    ∀ r ∈ (pivot_table t iCols pCol vCol).rows,
      ∃! pr, pr ∈ partitionRows (pivot_table t iCols pCol vCol) gcols ∧ r ∈ pr.2 := by
  by_cases hge : gcols.isEmpty
  · constructor
    · unfold partitionRows
      rw [if_pos hge]
      simp
    · intro r hr
      unfold partitionRows
      rw [if_pos hge]
      refine ⟨([], (pivot_table t iCols pCol vCol).rows),
        ⟨List.mem_singleton_self _, hr⟩, ?_⟩
      rintro pr ⟨hpr, _⟩
      exact List.mem_singleton.mp hpr
  · have hcov : ∀ r ∈ (pivot_table t iCols pCol vCol).rows,
        partitionKey (pivot_table t iCols pCol vCol) gcols r ∈
          (((pivot_table t iCols pCol vCol).rows.map
            (partitionKey (pivot_table t iCols pCol vCol) gcols)).filter
              fun kk => kk.all cellPresent).dedup := by
      intro r hr
      rw [List.mem_dedup]
      exact List.mem_filter.mpr ⟨List.mem_map_of_mem _ hr,
        pivot_partitionKey_present t iCols pCol vCol gcols hg r hr⟩
    constructor
    · unfold partitionRows
      rw [if_neg hge, List.map_map]
      exact join_filter_perm (partitionKey (pivot_table t iCols pCol vCol) gcols)
        _ _ (List.nodup_dedup _) hcov
    · intro r hr
      unfold partitionRows
      rw [if_neg hge]
      refine ⟨(partitionKey (pivot_table t iCols pCol vCol) gcols r,
          (pivot_table t iCols pCol vCol).rows.filter fun x =>
            decide (partitionKey (pivot_table t iCols pCol vCol) gcols x
              = partitionKey (pivot_table t iCols pCol vCol) gcols r)),
        ⟨List.mem_map_of_mem _ (hcov r hr),
          List.mem_filter.mpr ⟨hr, by simp⟩⟩, ?_⟩
      rintro pr ⟨hprmem, hprr⟩
      rcases List.mem_map.mp hprmem with ⟨k', hk', rfl⟩
      have hkey : partitionKey (pivot_table t iCols pCol vCol) gcols r = k' := by
        simpa using List.of_mem_filter hprr
      rw [← hkey]

theorem partition_exhaustive_witness :
    (∀ g ∈ (["State Name"] : List String), g ∈ (["State Name", "Date"] : List String)) ∧
      (List.Perm
        (((partitionRows (pivot_table dupTable ["State Name", "Date"] "Pollutant Name"
            "Arithmetic Mean") ["State Name"]).map Prod.snd).flatten)
        (pivot_table dupTable ["State Name", "Date"] "Pollutant Name"
          "Arithmetic Mean").rows ∧
      ∀ r ∈ (pivot_table dupTable ["State Name", "Date"] "Pollutant Name"
          "Arithmetic Mean").rows,
        ∃! pr, pr ∈ partitionRows (pivot_table dupTable ["State Name", "Date"]
            "Pollutant Name" "Arithmetic Mean") ["State Name"] ∧ r ∈ pr.2) :=
  ⟨by decide,
    partition_exhaustive dupTable ["State Name", "Date"] "Pollutant Name"
      "Arithmetic Mean" ["State Name"] (by decide)⟩
